import Mathlib

/-!
Verification of the streaming STT session and sentence-batching pipeline of
the `translator` backend (`app/services/stt/buffer.py`,
`app/services/stt/rtzr_client.py`, `app/services/stt/text_corrector.py`,
`app/config.py`).

Python strings are embedded as `List Char`; Python's `str.split()`,
`str.strip()`, `str.replace`, `endswith`, `startswith` and the `in`
substring test are modelled by executable functions on character lists
with the same semantics.
-/

set_option maxHeartbeats 1000000
set_option maxRecDepth 8000

/-- Character strings of the Python source, embedded as lists of characters. -/
abbrev Str := List Char

/-- Whitespace test used by Python's default `str.split()` / `str.strip()`. -/
def isWsChar (c : Char) : Bool := c.isWhitespace

/-- Helper for `pyWords`: scans the characters, accumulating the current word
(in reverse) in `acc`; a whitespace character or the end of input flushes the
accumulated word.  This computes the same word list as Python `str.split()`. -/
def wordsAcc : List Char → List Char → List (List Char)
  | [], acc => if acc = [] then [] else [acc.reverse]
  | c :: cs, acc =>
    if isWsChar c then
      if acc = [] then wordsAcc cs [] else acc.reverse :: wordsAcc cs []
    else
      wordsAcc cs (c :: acc)

/-- Python `text.split()`: maximal runs of non-whitespace characters. -/
def pyWords (l : Str) : List Str := wordsAcc l []

/-- A word produced by `pyWords`: non-empty and free of whitespace. -/
def cleanWord (w : Str) : Prop := w ≠ [] ∧ ∀ c ∈ w, isWsChar c = false

/-- Python `text.strip()`: drop leading and trailing whitespace. -/
def pyTrim (l : Str) : Str :=
  ((l.dropWhile isWsChar).reverse.dropWhile isWsChar).reverse

/-- Python `" ".join(ws)`. -/
def joinWords : List Str → Str
  | [] => []
  | [w] => w
  | w :: w' :: ws => w ++ ' ' :: joinWords (w' :: ws)

/-- Python's substring test `pat in s`. -/
def containsSub (pat : Str) : Str → Bool
  | [] => pat.isPrefixOf []
  | c :: s => pat.isPrefixOf (c :: s) || containsSub pat s

/-- Fuel-driven core of `pyReplace`; the fuel starts at the length of the
string, which suffices because every step consumes at least one character
whenever the pattern is non-empty (all patterns in the source are). -/
def replaceFuel (pat rep : Str) : Nat → Str → Str
  | _, [] => []
  | 0, s => s
  | n + 1, c :: s =>
    if pat.isPrefixOf (c :: s) then rep ++ replaceFuel pat rep n ((c :: s).drop pat.length)
    else c :: replaceFuel pat rep n s

/-- Python `s.replace(pat, rep)`: replace all non-overlapping occurrences,
left to right. -/
def pyReplace (s pat rep : Str) : Str := replaceFuel pat rep s.length s

/-! ## TextCorrector (`text_corrector.py`) -/

/-- Insertion-ordered `phonetic_corrections` dictionary of `TextCorrector.__init__`. -/
def phoneticCorrections : List (String × String) :=
  [("성심", "성신"), ("성인", "성신"), ("성식", "성신"),
   ("감정", "간증"), ("간정", "간증"), ("간점", "간증"),
   ("구조", "구주"), ("국주", "구주"),
   ("형재", "형제"), ("현제", "형제"), ("형재님", "형제님"),
   ("자미", "자매"), ("자배", "자매"),
   ("워드", "와드"), ("왔드", "와드"), ("원드", "와드"),
   ("성찰", "성찬"), ("생산", "성찬"), ("성차", "성찬"),
   ("신관", "신권"), ("신원", "신권"),
   ("측복", "축복"), ("축보", "축복"), ("축볼", "축복을"),
   ("칠례", "침례"),
   ("협게", "회개"), ("회계", "회개"),
   ("속제", "속죄"), ("속재", "속죄"),
   ("미듬", "믿음"), ("미드믈", "믿음을"), ("미들", "믿음"),
   ("가치", "같이"),
   ("바들", "받을"), ("바즐", "받을"), ("바다", "받다"),
   ("이슬", "있을"), ("이즐", "있을"),
   ("가즐", "갖을"), ("가질", "갖을"),
   ("하난님", "하나님"), ("한나님", "하나님"), ("하눈님", "하나님"),
   ("하나님게서", "하나님께서"), ("하나님에서", "하나님께서"),
   ("말슴", "말씀"), ("말씸", "말씀"),
   ("사랑한니다", "사랑합니다"),
   ("그램", "그럼")]

/-- Insertion-ordered `text_fixes` dictionary of `TextCorrector.__init__`. -/
def textFixes : List (String × String) :=
  [("교회 갑니다", "교회에 갑니다"), ("교회 왔습니다", "교회에 왔습니다"),
   ("저 생각", "저는 생각"), ("우리 하나님", "우리의 하나님"),
   ("우리 구주", "우리의 구주"),
   ("예수 그리스도 이름으로", "예수 그리스도의 이름으로"),
   ("말씀 드리겠습니다", "말씀드리겠습니다"), ("간증 드립니다", "간증드립니다"),
   ("축복 받을", "축복을 받을"), ("성신 통해", "성신을 통해"),
   ("감사 드립니다", "감사드립니다"), ("예수그리스도", "예수 그리스도")]

/-- Subject markers checked by `fix_text`'s missing-subject heuristic. -/
def subjectMarkers : List String := ["저", "우리", "그", "이", "여러분", "형제", "자매"]

/-- Sentence-final verbs checked by `fix_text`'s missing-subject heuristic. -/
def subjectVerbs : List String := ["합니다", "입니다", "드립니다", "됩니다"]

/-- Applies one of the correction dictionaries in insertion order:
`for wrong, correct in d.items(): if wrong in text: text = text.replace(wrong, correct)`. -/
def applyFixes (fixes : List (String × String)) (t : Str) : Str :=
  fixes.foldl (fun acc pr =>
    if containsSub pr.1.data acc then pyReplace acc pr.1.data pr.2.data else acc) t

/-- Embedding of `TextCorrector.fix_text` (`text_corrector.py` lines 87-121):
strip, apply the two replacement dictionaries, the `그래서가` special case,
then the subject-restoration heuristic that consults the translation context. -/
def fix_text (text context : Str) : Str :=
  let t0 := pyTrim text
  let t1 := applyFixes phoneticCorrections t0
  let t2 := applyFixes textFixes t1
  let t3 := if t2 = ("그래서가").data ∨ t2 = ("그래서 가").data then ("그래서 우리가").data else t2
  if subjectMarkers.any (fun s => containsSub s.data t3) then t3
  else if t3.length < 15 ∧ subjectVerbs.any (fun v => containsSub v.data t3) then
    if context ≠ [] ∧ (containsSub (("저는").data) context ∨ containsSub (("저가").data) context) then
      ("저는 ").data ++ t3
    else if context ≠ [] ∧ containsSub (("우리").data) context then
      ("우리는 ").data ++ t3
    else t3
  else t3

/-! ## TranscriptBuffer (`buffer.py`, configuration from `config.py`) -/

/-- Buffer thresholds and timeouts (`Settings` in `config.py`, read by
`TranscriptBuffer.__init__`). Timeouts are in seconds. -/
structure BufferConfig where
  targetSentences : Nat
  maxSentences : Nat
  partialTimeout : ℚ
  sentenceTimeout : ℚ
deriving DecidableEq

/-- The configured defaults: `BUFFER_TARGET_SENTENCES = 4`,
`BUFFER_MAX_SENTENCES = 5`, `BUFFER_PARTIAL_TIMEOUT = 2.0`,
`BUFFER_SENTENCE_TIMEOUT = 4.0`. -/
def defaultConfig : BufferConfig := ⟨4, 5, 2, 4⟩

/-- The produced batch dictionary `{'korean_processed': ..., 'context': ...}`. -/
structure Batch where
  korean_processed : Str
  context : Str
deriving DecidableEq

/-- Mutable state of `TranscriptBuffer`: the collected complete sentences, the
pending partial text, the recent-batch history, and the deferred-flush timer
(modelled by the armed timeout, `none` when no timer is pending). -/
structure TranscriptBuffer where
  current_sentences : List Str
  partialText : Str
  context_history : List Str
  timer : Option ℚ
deriving DecidableEq

/-- A freshly constructed buffer (`TranscriptBuffer.__init__`). -/
def freshTB : TranscriptBuffer := ⟨[], [], [], none⟩

/-- The `sentence_endings` set of `TranscriptBuffer.__init__`, in source
order (the duplicated entries of the Python set literal are harmless since
only membership is used). -/
def sentenceEndings : List Str :=
  (["다", "니다", "습니다", "합니다", "입니다", "됩니다",
    "어요", "아요", "에요", "예요", "어", "아", "지", "죠", "거든", "걸",
    "는데", "네", "군", "구나", "란다", "렴", "마", "자", "라",
    "까", "니", "나", "가", "냐", "느냐", "는가", "을까", "을까요",
    "세요", "십시오", "어라", "거라", "시다",
    "군요", "네요", "는구나", "는군요",
    "음", "슴", "심", "임"] : List String).map String.data

/-- The continuation particles checked against the following word in
`_split_into_sentences` line 139. -/
def continuationParticles : List Str :=
  (["는", "도", "만", "까지", "부터", "라고", "고", "며", "면서"] : List String).map String.data

/-- Python `word.endswith(('.', '!', '?'))`. -/
def endsWithPunct (w : Str) : Bool :=
  match w.getLast? with
  | some c => c == '.' || c == '!' || c == '?'
  | none => false

/-- Does the word end with one of the recognized sentence-final endings? -/
def endsWithEnding (w : Str) : Bool := sentenceEndings.any (fun e => e.isSuffixOf w)

/-- Does the word start with one of the continuation particles? -/
def startsWithParticle (w : Str) : Bool :=
  continuationParticles.any (fun p => p.isPrefixOf w)

/-- The per-word sentence-end test of `_split_into_sentences` lines 126-145:
punctuation always ends a sentence; a morphological ending ends one unless the
next word starts with a continuation particle. -/
def isSentenceEnd (w : Str) (next : Option Str) : Bool :=
  if endsWithPunct w then true
  else if endsWithEnding w then
    match next with
    | some nw => !startsWithParticle nw
    | none => true
  else false

/-- The word loop of `_split_into_sentences` lines 122-154. `current` is the
accumulated sentence text; the source appends a single space after every
non-terminating word (`current += " "` when `current` is non-empty) and calls
`.strip()` on every emitted sentence and on the final remainder. -/
def splitLoop : List Str → Str → List Str × Str
  | [], current => ([], pyTrim current)
  | w :: ws, current =>
    let cur := current ++ w
    if isSentenceEnd w ws.head? then
      let r := splitLoop ws []
      (pyTrim cur :: r.1, r.2)
    else
      splitLoop ws (if cur = [] then cur else cur ++ [' '])

/-- Embedding of `TranscriptBuffer._split_into_sentences`: split the text
into whitespace words and run the sentence-terminator loop over them. -/
def split_into_sentences (text : Str) : List Str × Str :=
  splitLoop (pyWords text) []

/-- Word-level ghost of `splitLoop`: carries the accumulated words of the
current sentence instead of their joined text. -/
def splitLoopW : List Str → List Str → List (List Str) × List Str
  | [], acc => ([], acc)
  | w :: ws, acc =>
    if isSentenceEnd w ws.head? then
      let r := splitLoopW ws []
      ((acc ++ [w]) :: r.1, r.2)
    else
      splitLoopW ws (acc ++ [w])

/-- Python `l[-n:]`: the last `n` entries (all of them when fewer). -/
def lastN (n : Nat) (l : List α) : List α := l.drop (l.length - n)

/-- The translation-context string of `_process_sentences` line 175:
the space-join of the last 3 history entries (empty when the history is). -/
def contextOf (st : TranscriptBuffer) : Str :=
  if st.context_history = [] then [] else joinWords (lastN 3 st.context_history)

/-- The `sentences_to_process` join of `_process_sentences` lines 163-172:
all complete sentences, with the outstanding partial text appended last when
present, joined by single spaces. -/
def flushText (st : TranscriptBuffer) : Str :=
  joinWords (st.current_sentences ++ (if st.partialText = [] then [] else [st.partialText]))

/-- The history update of `_process_sentences` lines 180-183: append the
processed text and pop the oldest entry when the length exceeds 5. -/
def pushHistory (ch : List Str) (x : Str) : List Str :=
  if 5 < (ch ++ [x]).length then (ch ++ [x]).tail else ch ++ [x]

/-- Embedding of `TranscriptBuffer._process_sentences` (lines 158-193): when
anything is outstanding, join the complete sentences (plus the trailing
partial text, if any) with spaces, correct the joined text against the
context, append the corrected text to the history (capped by popping the
oldest entry when the length exceeds 5), clear the sentence and partial
buffers, and return the batch. The timer field is not touched here. -/
def process_sentences (st : TranscriptBuffer) : Option Batch × TranscriptBuffer :=
  if st.current_sentences = [] ∧ st.partialText = [] then (none, st)
  else
    let processed := fix_text (flushText st) (contextOf st)
    (some ⟨processed, contextOf st⟩,
     { st with current_sentences := [], partialText := [],
               context_history := pushHistory st.context_history processed })

/-- The combination step of `add_text` lines 66-69: prepend the carried-over
partial text, separated by one space. -/
def combinedText (st : TranscriptBuffer) (t : Str) : Str :=
  if st.partialText = [] then t else st.partialText ++ ' ' :: t

/-- State change of `add_text` before the flush decision (lines 61-82): the
pending timer is cancelled, the combined text is segmented, the new complete
sentences are appended and the unterminated remainder becomes the partial
text. -/
def ingestState (st : TranscriptBuffer) (input : Str) : TranscriptBuffer :=
  let p := split_into_sentences (combinedText st (pyTrim input))
  { st with timer := none,
            current_sentences := st.current_sentences ++ p.1,
            partialText := p.2 }

/-- The flush decision of `add_text` lines 84-95: the `if len >= TARGET`
branch followed by the `elif len >= MAX` branch. -/
def flushDecision (cfg : BufferConfig) (n : Nat) : Bool :=
  if cfg.targetSentences ≤ n then true
  else if cfg.maxSentences ≤ n then true
  else false

/-- The number of complete sentences accumulated after segmenting the
combined text in a call to `add_text`. -/
def newCount (st : TranscriptBuffer) (input : Str) : Nat :=
  st.current_sentences.length +
    (split_into_sentences (combinedText st (pyTrim input))).1.length

/-- Embedding of `TranscriptBuffer.add_text` (lines 53-113): ignore
whitespace-only input; otherwise cancel the timer, merge and segment the
text, flush inline when the threshold is met, and otherwise arm exactly one
deferred-flush timer (the longer sentence timeout when a complete sentence is
outstanding, the short partial timeout when only partial text is). -/
def add_text (cfg : BufferConfig) (st : TranscriptBuffer) (input : Str) :
    Option Batch × TranscriptBuffer :=
  if pyTrim input = [] then (none, st)
  else
    let st2 := ingestState st input
    if flushDecision cfg st2.current_sentences.length then
      process_sentences st2
    else if st2.current_sentences ≠ [] then
      (none, { st2 with timer := some cfg.sentenceTimeout })
    else if st2.partialText ≠ [] then
      (none, { st2 with timer := some cfg.partialTimeout })
    else (none, st2)

/-- Embedding of `TranscriptBuffer._timeout_flush` on the buffer state: a
timer expiry forces a flush through `_process_sentences`. -/
def timeout_flush (st : TranscriptBuffer) : Option Batch × TranscriptBuffer :=
  process_sentences { st with timer := none }

/-- Feeding a list of fragments one by one through `add_text`, collecting
every inline batch in order. -/
def addTexts (cfg : BufferConfig) : TranscriptBuffer → List Str → List Batch × TranscriptBuffer
  | st, [] => ([], st)
  | st, f :: fs =>
    let r := add_text cfg st f
    let rr := addTexts cfg r.2 fs
    (r.1.toList ++ rr.1, rr.2)

/-- The token content of the buffer: the words of every complete sentence,
in order, followed by the words of the partial text. -/
def contentTokens (st : TranscriptBuffer) : List Str :=
  (st.current_sentences.map pyWords).flatten ++ pyWords st.partialText

/-! ## RTZRWebSocketClient (`rtzr_client.py`) -/

/-- The connection-related state of `RTZRWebSocketClient`: the readiness
flag, the outbound FIFO `audio_queue`, the pre-ready `pending_audio` buffer
and the running flag. Audio frames are opaque values of type `α`. -/
structure RTZRClientState (α : Type) where
  connection_ready : Bool
  audio_queue : List α
  pending_audio : List α
  is_running : Bool
deriving DecidableEq

/-- State established by `RTZRWebSocketClient.__init__`. -/
def initClientState : RTZRClientState α := ⟨false, [], [], false⟩

/-- Embedding of `RTZRWebSocketClient.add_audio` (lines 173-181): a frame
goes to the outbound queue when the connection is ready and is otherwise
buffered in `pending_audio`. -/
def add_audio (st : RTZRClientState α) (a : α) : RTZRClientState α :=
  if st.connection_ready then { st with audio_queue := st.audio_queue ++ [a] }
  else { st with pending_audio := st.pending_audio ++ [a] }

/-- Embedding of the post-handshake block of `connect_websocket` (lines
94-108): the running and ready flags are raised, then every frame buffered in
`pending_audio` is put on `audio_queue` in order and the pending buffer is
cleared. -/
def on_connected (st : RTZRClientState α) : RTZRClientState α :=
  { st with is_running := true,
            connection_ready := true,
            audio_queue := st.audio_queue ++ st.pending_audio,
            pending_audio := [] }

/-- Cached token with its expiry instant (`self._token`). -/
structure TokenCache where
  access_token : Str
  expire_at : ℚ
deriving DecidableEq

/-- Outcome of the HTTP POST to `/v1/authenticate`: a transport failure
(the `except` branch) or a response with a status code and token payload. -/
inductive AuthResponse : Type
  | netFailure : AuthResponse
  | httpResponse (status : Nat) (token : Str) : AuthResponse
deriving DecidableEq

/-- Embedding of `RTZRWebSocketClient.get_token` (lines 34-64): a cached,
unexpired token is returned as is; otherwise the endpoint is consulted once —
a transport failure or a non-200 status yields `None` and leaves the cache
unchanged, a 200 response caches the token for 86400 seconds. Returns the
token result and the updated cache. -/
def get_token (cached : Option TokenCache) (now : ℚ) (resp : AuthResponse) :
    Option Str × Option TokenCache :=
  let refresh : Option Str × Option TokenCache :=
    match resp with
    | .netFailure => (none, cached)
    | .httpResponse status token =>
      if status ≠ 200 then (none, cached)
      else (some token, some ⟨token, now + 86400⟩)
  match cached with
  | none => refresh
  | some tc => if tc.expire_at < now then refresh else (some tc.access_token, some tc)

/-- Embedding of the token check at the top of `connect_websocket` (lines
66-73): with no token the method logs and returns at once — no socket is
opened, no retry is attempted, and the connection state is untouched. The
boolean records whether a socket connection is attempted at all. -/
def connect_websocket_auth (st : RTZRClientState α) (token : Option Str) :
    RTZRClientState α × Bool :=
  match token with
  | none => (st, false)
  | some _ => (st, true)

/-- One decoded message of the receive loop: the texts of the `alternatives`
list (each alternative contributes its `text` field), the `final` flag and
whether an `error` field is present. -/
structure STTMessage where
  alternatives : List Str
  final : Bool
  error : Bool
deriving DecidableEq

/-- Embedding of the message-handling body of `receive_messages` (lines
129-139): when the `alternatives` list is non-empty, the first alternative's
stripped text is non-empty and the message is final, the transcript callback
receives that text; otherwise nothing is dispatched. An `error` field is only
logged and never stops processing. -/
def handle_message (m : STTMessage) : Option Str :=
  if m.alternatives.isEmpty then none
  else
    let text := pyTrim (m.alternatives.headD [])
    if text ≠ [] ∧ m.final then some text else none

/-- The receive loop over a list of decoded messages: the sequence of texts
passed to the transcript callback, in receipt order. -/
def processMessages (msgs : List STTMessage) : List Str :=
  msgs.filterMap handle_message

/-- The condition of claim C7, written from the spec's words: the message
carries a non-empty alternatives list whose first alternative's text is
non-empty after trimming, and the final flag is set. -/
def fireSpec (m : STTMessage) : Bool :=
  !m.alternatives.isEmpty && !(pyTrim (m.alternatives.headD [])).isEmpty && m.final

/-- Modelled from the spec's words for claim C10: `add_text` with the
`elif len >= MAX` branch removed, so that the flush decision is the single
test `len(current_sentences) >= TARGET`. -/
def add_text_target_only (cfg : BufferConfig) (st : TranscriptBuffer) (input : Str) :
    Option Batch × TranscriptBuffer :=
  if pyTrim input = [] then (none, st)
  else
    let st2 := ingestState st input
    if cfg.targetSentences ≤ st2.current_sentences.length then
      process_sentences st2
    else if st2.current_sentences ≠ [] then
      (none, { st2 with timer := some cfg.sentenceTimeout })
    else if st2.partialText ≠ [] then
      (none, { st2 with timer := some cfg.partialTimeout })
    else (none, st2)

/-- One refill-and-flush round used to state the context-history cap: the
buffer is loaded with some sentences and partial text accumulated since the
previous flush, then `_process_sentences` runs. -/
def refill (st : TranscriptBuffer) (load : List Str × Str) : TranscriptBuffer :=
  { st with current_sentences := load.1, partialText := load.2 }

/-- A sequence of flush rounds, collecting the produced batches in order and
threading the context history through. -/
def runFlushes (st : TranscriptBuffer) : List (List Str × Str) → List Batch × TranscriptBuffer
  | [] => ([], st)
  | load :: rest =>
    let r := process_sentences (refill st load)
    let rr := runFlushes r.2 rest
    (r.1.toList ++ rr.1, rr.2)

/-- A concrete buffer holding one complete sentence, used to exercise the
flush theorems. -/
def tbA : TranscriptBuffer := ⟨[("가나다").data], [], [], none⟩

/-- The state `tbA` reaches after its flush. -/
def tbA' : TranscriptBuffer := ⟨[], [], [("가나다").data], none⟩

/-- The batch produced by flushing `tbA`. -/
def batchA : Batch := ⟨("가나다").data, []⟩

/-- Six single-sentence loads used to exercise the context-history cap. -/
def sixLoads : List (List Str × Str) :=
  [([("가").data], []), ([("나").data], []), ([("다").data], []),
   ([("라").data], []), ([("마").data], []), ([("바").data], [])]


/-! ## Lemmas about the word tokenizer -/

theorem wordsAcc_all_not_ws : ∀ (w acc : List Char), (∀ c ∈ w, isWsChar c = false) →
    wordsAcc w acc = if acc.reverse ++ w = [] then [] else [acc.reverse ++ w] := by
  intro w
  induction w with
  | nil => intro acc _; simp [wordsAcc]
  | cons c w ih =>
    intro acc h
    have hc : isWsChar c = false := h c (by simp)
    have hrec := ih (c :: acc) (fun d hd => h d (by simp [hd]))
    simp only [wordsAcc, hc, Bool.false_eq_true, if_false, hrec, List.reverse_cons]
    simp

theorem wordsAcc_split (c : Char) (hc : isWsChar c = true) :
    ∀ (l1 l2 acc : List Char),
      wordsAcc (l1 ++ c :: l2) acc = wordsAcc l1 acc ++ wordsAcc l2 [] := by
  intro l1
  induction l1 with
  | nil =>
    intro l2 acc
    by_cases ha : acc = [] <;> simp [wordsAcc, hc, ha]
  | cons d l1 ih =>
    intro l2 acc
    by_cases hd : isWsChar d
    · by_cases ha : acc = [] <;> simp [wordsAcc, hd, ha, ih]
    · simp [wordsAcc, hd, ih]

theorem wordsAcc_of_all_ws : ∀ (b : List Char), (∀ c ∈ b, isWsChar c = true) →
    ∀ acc, wordsAcc b acc = if acc = [] then [] else [acc.reverse] := by
  intro b
  induction b with
  | nil => intro _ acc; simp [wordsAcc]
  | cons c b ih =>
    intro h acc
    have hc : isWsChar c = true := h c (by simp)
    have hb : ∀ d ∈ b, isWsChar d = true := fun d hd => h d (by simp [hd])
    by_cases ha : acc = [] <;> simp [wordsAcc, hc, ha, ih hb]

theorem wordsAcc_append_all_ws (b : List Char) (hb : ∀ c ∈ b, isWsChar c = true) :
    ∀ (a acc : List Char), wordsAcc (a ++ b) acc = wordsAcc a acc := by
  intro a
  induction a with
  | nil =>
    intro acc
    rw [List.nil_append, wordsAcc_of_all_ws b hb acc]
    simp [wordsAcc]
  | cons c a ih =>
    intro acc
    by_cases hhc : isWsChar c
    · by_cases ha : acc = [] <;> simp [wordsAcc, hhc, ha, ih]
    · simp [wordsAcc, hhc, ih]

theorem wordsAcc_ne_nil : ∀ (l acc : List Char), acc ≠ [] → wordsAcc l acc ≠ [] := by
  intro l
  induction l with
  | nil => intro acc ha; simp [wordsAcc, ha]
  | cons c l ih =>
    intro acc ha
    by_cases hc : isWsChar c
    · simp [wordsAcc, hc, ha]
    · simp only [wordsAcc, hc, Bool.false_eq_true, if_false]
      exact ih _ (by simp)

theorem pyWords_eq_nil_iff (l : List Char) : pyWords l = [] ↔ ∀ c ∈ l, isWsChar c = true := by
  induction l with
  | nil => simp [pyWords, wordsAcc]
  | cons c l ih =>
    by_cases hc : isWsChar c
    · simpa [pyWords, wordsAcc, hc] using ih
    · have h5 := wordsAcc_ne_nil l [c] (by simp)
      simp [pyWords, wordsAcc, hc, h5]

theorem pyWords_dropWhile_ws (l : List Char) : pyWords (l.dropWhile isWsChar) = pyWords l := by
  induction l with
  | nil => rfl
  | cons c l ih =>
    by_cases hc : isWsChar c
    · simp only [List.dropWhile_cons, hc, if_true, pyWords, wordsAcc]
      simpa [pyWords] using ih
    · simp [List.dropWhile_cons, hc]

theorem pyWords_pyTrim (l : List Char) : pyWords (pyTrim l) = pyWords l := by
  have h1 : pyWords (l.dropWhile isWsChar) = pyWords l := pyWords_dropWhile_ws l
  set m := l.dropWhile isWsChar with hm
  have hdecomp : m = (m.reverse.dropWhile isWsChar).reverse ++ (m.reverse.takeWhile isWsChar).reverse := by
    have h2 : m.reverse.takeWhile isWsChar ++ m.reverse.dropWhile isWsChar = m.reverse :=
      List.takeWhile_append_dropWhile ..
    calc m = m.reverse.reverse := by simp
    _ = (m.reverse.takeWhile isWsChar ++ m.reverse.dropWhile isWsChar).reverse := by rw [h2]
    _ = _ := by rw [List.reverse_append]
  have hb : ∀ c ∈ (m.reverse.takeWhile isWsChar).reverse, isWsChar c = true := by
    intro c hcmem
    exact List.mem_takeWhile_imp (List.mem_reverse.mp hcmem)
  have : pyWords (pyTrim l) = pyWords m := by
    rw [pyTrim, ← hm]
    conv_rhs => rw [hdecomp]
    unfold pyWords
    rw [wordsAcc_append_all_ws _ hb]
  rw [this, h1]

theorem pyWords_ne_nil_of_pyTrim_ne_nil (l : List Char) (h : pyTrim l ≠ []) :
    pyWords l ≠ [] := by
  intro hnil
  have htr : pyWords (pyTrim l) = [] := by rw [pyWords_pyTrim, hnil]
  have hall : ∀ c ∈ pyTrim l, isWsChar c = true := (pyWords_eq_nil_iff _).mp htr
  set d := (l.dropWhile isWsChar).reverse.dropWhile isWsChar with hd
  have hdne : d ≠ [] := by
    intro hdn
    exact h (by simp [pyTrim, ← hd, hdn])
  obtain ⟨c0, t, hct⟩ := List.exists_cons_of_ne_nil hdne
  have hc0 : ¬ isWsChar c0 := by
    have := List.head?_dropWhile_not isWsChar ((l.dropWhile isWsChar).reverse)
    rw [← hd, hct] at this
    simpa using this
  have hc0mem : c0 ∈ pyTrim l := by
    show c0 ∈ d.reverse
    simp [hct]
  exact hc0 (hall c0 hc0mem)

/-! ## Lemmas about joining words -/

theorem joinWords_cons (w : Str) (ws : List Str) :
    joinWords (w :: ws) = w ++ (if ws = [] then [] else ' ' :: joinWords ws) := by
  cases ws <;> simp [joinWords]

theorem joinWords_concat : ∀ (ws : List Str) (w : Str),
    joinWords (ws ++ [w]) = if ws = [] then w else joinWords ws ++ ' ' :: w := by
  intro ws
  induction ws with
  | nil => intro w; simp [joinWords]
  | cons a ws ih =>
    intro w
    cases ws with
    | nil => simp [joinWords]
    | cons b ws' =>
      have ih' := ih w
      rw [if_neg (by simp)] at ih'
      rw [if_neg (by simp)]
      show a ++ ' ' :: joinWords ((b :: ws') ++ [w]) = (a ++ ' ' :: joinWords (b :: ws')) ++ ' ' :: w
      rw [ih']
      simp

theorem pyWords_joinWords_flatten : ∀ (fs : List Str),
    pyWords (joinWords fs) = (fs.map pyWords).flatten := by
  intro fs
  induction fs with
  | nil => rfl
  | cons f fs ih =>
    cases fs with
    | nil => simp [joinWords]
    | cons g fs' =>
      show pyWords (f ++ ' ' :: joinWords (g :: fs')) = _
      unfold pyWords
      rw [wordsAcc_split ' ' (by rfl) f (joinWords (g :: fs')) []]
      show pyWords f ++ pyWords (joinWords (g :: fs')) = _
      rw [ih]
      rfl

theorem cleanWord_ne_nil {w : Str} (h : cleanWord w) : w ≠ [] := h.1

theorem pyWords_single {w : Str} (h : cleanWord w) : pyWords w = [w] := by
  unfold pyWords
  rw [wordsAcc_all_not_ws w [] h.2]
  simp [h.1]

theorem pyWords_joinWords {ws : List Str} (h : ∀ w ∈ ws, cleanWord w) :
    pyWords (joinWords ws) = ws := by
  rw [pyWords_joinWords_flatten]
  induction ws with
  | nil => rfl
  | cons w ws ih =>
    simp only [List.map_cons, List.flatten_cons]
    rw [pyWords_single (h w (by simp)), ih (fun v hv => h v (by simp [hv]))]
    rfl

theorem joinWords_ne_nil {ws : List Str} (h : ∀ w ∈ ws, cleanWord w) (hne : ws ≠ []) :
    joinWords ws ≠ [] := by
  obtain ⟨w, ws', rfl⟩ := List.exists_cons_of_ne_nil hne
  rw [joinWords_cons]
  have hw := (h w (by simp)).1
  simp [hw]

theorem joinWords_head?_not_ws {ws : List Str} (h : ∀ w ∈ ws, cleanWord w) :
    ∀ c, (joinWords ws).head? = some c → isWsChar c = false := by
  intro c hc
  cases ws with
  | nil => simp [joinWords] at hc
  | cons w ws' =>
    rw [joinWords_cons] at hc
    have hw := h w (by simp)
    obtain ⟨d, t, rfl⟩ := List.exists_cons_of_ne_nil hw.1
    simp only [List.cons_append, List.head?_cons, Option.some.injEq] at hc
    exact hc ▸ hw.2 d (by simp)

theorem joinWords_getLast?_not_ws : ∀ (ws : List Str), (∀ w ∈ ws, cleanWord w) →
    ∀ c, (joinWords ws).getLast? = some c → isWsChar c = false := by
  intro ws
  induction ws with
  | nil => intro _ c hc; simp [joinWords] at hc
  | cons w ws' ih =>
    intro h c hc
    cases ws'aux : ws' with
    | nil =>
      subst ws'aux
      simp only [joinWords] at hc
      exact (h w (by simp)).2 c (List.mem_of_getLast?_eq_some hc)
    | cons g gs =>
      subst ws'aux
      have hclean' : ∀ v ∈ g :: gs, cleanWord v := fun v hv => h v (by simp [hv])
      have hne : joinWords (g :: gs) ≠ [] := joinWords_ne_nil hclean' (by simp)
      have hJoin : joinWords (w :: g :: gs) = (w ++ [' ']) ++ joinWords (g :: gs) := by
        show w ++ ' ' :: joinWords (g :: gs) = _
        simp
      rw [hJoin, List.getLast?_append] at hc
      rcases hx : (joinWords (g :: gs)).getLast? with _ | x
      · rw [List.getLast?_eq_none_iff] at hx
        exact absurd hx hne
      · rw [hx] at hc
        simp only [Option.or_some, Option.some.injEq] at hc
        exact hc ▸ ih hclean' x hx

/-! ## Trimming clean joins -/

theorem dropWhile_eq_self_of_head? {p : Char → Bool} {l : List Char}
    (h : ∀ c, l.head? = some c → p c = false) : l.dropWhile p = l := by
  cases l with
  | nil => rfl
  | cons c t =>
    rw [List.dropWhile_cons, if_neg]
    simp [h c rfl]

theorem pyTrim_eq_self {l : Str}
    (h1 : ∀ c, l.head? = some c → isWsChar c = false)
    (h2 : ∀ c, l.getLast? = some c → isWsChar c = false) : pyTrim l = l := by
  unfold pyTrim
  rw [dropWhile_eq_self_of_head? h1]
  rw [dropWhile_eq_self_of_head? (fun c hc => h2 c (by rwa [List.getLast?_eq_head?_reverse]))]
  exact l.reverse_reverse

theorem pyTrim_joinWords {ws : List Str} (h : ∀ w ∈ ws, cleanWord w) :
    pyTrim (joinWords ws) = joinWords ws :=
  pyTrim_eq_self (joinWords_head?_not_ws h) (joinWords_getLast?_not_ws ws h)

theorem pyTrim_joinWords_space {ws : List Str} (h : ∀ w ∈ ws, cleanWord w) (hne : ws ≠ []) :
    pyTrim (joinWords ws ++ [' ']) = joinWords ws := by
  have hJ : joinWords ws ≠ [] := joinWords_ne_nil h hne
  have h1 : List.dropWhile isWsChar (joinWords ws ++ [' ']) = joinWords ws ++ [' '] := by
    apply dropWhile_eq_self_of_head?
    intro c hc
    rw [List.head?_append] at hc
    obtain ⟨d, t, hdt⟩ := List.exists_cons_of_ne_nil hJ
    rw [hdt] at hc
    simp only [List.head?_cons, Option.or_some, Option.some.injEq] at hc
    exact hc ▸ joinWords_head?_not_ws h d (by rw [hdt]; rfl)
  have h2 : List.dropWhile isWsChar ((joinWords ws ++ [' ']).reverse) = (joinWords ws).reverse := by
    rw [List.reverse_append]
    show List.dropWhile isWsChar (' ' :: (joinWords ws).reverse) = _
    rw [List.dropWhile_cons, if_pos (by rfl)]
    apply dropWhile_eq_self_of_head?
    intro c hc
    exact joinWords_getLast?_not_ws ws h c (by rwa [List.getLast?_eq_head?_reverse])
  unfold pyTrim
  rw [h1, h2, List.reverse_reverse]

/-! ## The segmentation loop and its word-level ghost -/

theorem wordsAcc_clean : ∀ (l acc : List Char), (∀ c ∈ acc, isWsChar c = false) →
    ∀ w ∈ wordsAcc l acc, cleanWord w := by
  intro l
  induction l with
  | nil =>
    intro acc hacc w hw
    by_cases ha : acc = []
    · simp [wordsAcc, ha] at hw
    · simp only [wordsAcc, if_neg ha, List.mem_singleton] at hw
      subst hw
      exact ⟨by simp [ha], fun c hc => hacc c (List.mem_reverse.mp hc)⟩
  | cons c l ih =>
    intro acc hacc w hw
    by_cases hc : isWsChar c
    · by_cases ha : acc = []
      · rw [wordsAcc, if_pos hc, if_pos ha] at hw
        exact ih [] (by simp) w hw
      · rw [wordsAcc, if_pos hc, if_neg ha] at hw
        rcases List.mem_cons.mp hw with h | h
        · subst h
          exact ⟨by simp [ha], fun d hd => hacc d (List.mem_reverse.mp hd)⟩
        · exact ih [] (by simp) w h
    · rw [wordsAcc, if_neg hc] at hw
      refine ih (c :: acc) ?_ w hw
      intro d hd
      rcases List.mem_cons.mp hd with h | h
      · subst h; simpa using hc
      · exact hacc d h

theorem pyWords_clean (l : Str) : ∀ w ∈ pyWords l, cleanWord w :=
  wordsAcc_clean l [] (by simp)

theorem splitLoopW_partition : ∀ (ws acc : List Str),
    (splitLoopW ws acc).1.flatten ++ (splitLoopW ws acc).2 = acc ++ ws := by
  intro ws
  induction ws with
  | nil => intro acc; simp [splitLoopW]
  | cons w ws ih =>
    intro acc
    by_cases hend : isSentenceEnd w ws.head?
    · simp only [splitLoopW, hend, if_true, List.flatten_cons]
      rw [List.append_assoc, ih []]
      simp
    · simp only [splitLoopW, hend, Bool.false_eq_true, if_false]
      rw [ih (acc ++ [w])]
      simp

theorem splitLoop_eq_splitLoopW : ∀ (ws acc : List Str),
    (∀ w ∈ ws, cleanWord w) → (∀ w ∈ acc, cleanWord w) →
    splitLoop ws (if acc = [] then [] else joinWords acc ++ [' ']) =
      ((splitLoopW ws acc).1.map joinWords, joinWords (splitLoopW ws acc).2) := by
  intro ws
  induction ws with
  | nil =>
    intro acc _ hacc
    by_cases ha : acc = []
    · subst ha
      simp [splitLoop, splitLoopW, pyTrim, joinWords]
    · simp only [splitLoop, splitLoopW, if_neg ha]
      rw [pyTrim_joinWords_space hacc ha]
      simp
  | cons w ws ih =>
    intro acc hws hacc
    have hw : cleanWord w := hws w (by simp)
    have hws' : ∀ v ∈ ws, cleanWord v := fun v hv => hws v (by simp [hv])
    have haccw : ∀ v ∈ acc ++ [w], cleanWord v := by
      intro v hv
      rcases List.mem_append.mp hv with h | h
      · exact hacc v h
      · rw [List.mem_singleton] at h; subst h; exact hw
    have hcur : (if acc = [] then ([] : Str) else joinWords acc ++ [' ']) ++ w
        = joinWords (acc ++ [w]) := by
      by_cases ha : acc = []
      · subst ha; simp [joinWords]
      · rw [if_neg ha, joinWords_concat, if_neg ha]; simp
    by_cases hend : isSentenceEnd w ws.head?
    · simp only [splitLoop, splitLoopW, hend, if_true]
      rw [hcur, pyTrim_joinWords haccw]
      have hrec := ih [] hws' (by simp)
      rw [if_pos rfl] at hrec
      rw [hrec]
      simp
    · simp only [splitLoop, splitLoopW, hend, Bool.false_eq_true, if_false]
      rw [hcur]
      have hne : joinWords (acc ++ [w]) ≠ [] := joinWords_ne_nil haccw (by simp)
      rw [if_neg hne]
      have hrec := ih (acc ++ [w]) hws' haccw
      rw [if_neg (by simp)] at hrec
      exact hrec

theorem split_into_sentences_eq (t : Str) :
    split_into_sentences t =
      ((splitLoopW (pyWords t) []).1.map joinWords, joinWords (splitLoopW (pyWords t) []).2) := by
  unfold split_into_sentences
  have h := splitLoop_eq_splitLoopW (pyWords t) [] (pyWords_clean t) (by simp)
  rw [if_pos rfl] at h
  exact h

theorem split_into_sentences_tokens (t : Str) :
    ((split_into_sentences t).1.map pyWords).flatten ++ pyWords (split_into_sentences t).2
      = pyWords t := by
  rw [split_into_sentences_eq]
  have hpart := splitLoopW_partition (pyWords t) []
  rw [List.nil_append] at hpart
  have hmem1 : ∀ g ∈ (splitLoopW (pyWords t) []).1, ∀ w ∈ g, cleanWord w := by
    intro g hg w hw
    apply pyWords_clean t
    rw [← hpart]
    exact List.mem_append_left _ (List.mem_flatten.mpr ⟨g, hg, hw⟩)
  have hmem2 : ∀ w ∈ (splitLoopW (pyWords t) []).2, cleanWord w := by
    intro w hw
    apply pyWords_clean t
    rw [← hpart]
    exact List.mem_append_right _ hw
  rw [List.map_map]
  have hmap : (splitLoopW (pyWords t) []).1.map (pyWords ∘ joinWords)
      = (splitLoopW (pyWords t) []).1.map id := by
    apply List.map_congr_left
    intro g hg
    exact pyWords_joinWords (hmem1 g hg)
  rw [hmap, List.map_id, pyWords_joinWords hmem2]
  exact hpart

/-! ## Lemmas about the buffer operations -/

theorem process_sentences_none {st x : TranscriptBuffer}
    (h : process_sentences st = (none, x)) :
    st.current_sentences = [] ∧ st.partialText = [] ∧ x = st := by
  unfold process_sentences at h
  by_cases hg : st.current_sentences = [] ∧ st.partialText = []
  · rw [if_pos hg] at h
    exact ⟨hg.1, hg.2, (Prod.mk.injEq _ _ _ _ ▸ h).2.symm⟩
  · rw [if_neg hg] at h
    simp at h

theorem process_sentences_some {st : TranscriptBuffer} {b : Batch} {st' : TranscriptBuffer}
    (h : process_sentences st = (some b, st')) :
    b = ⟨fix_text (flushText st) (contextOf st), contextOf st⟩ ∧
    st' = { st with
            current_sentences := []
            partialText := []
            context_history := pushHistory st.context_history b.korean_processed } := by
  unfold process_sentences at h
  by_cases hg : st.current_sentences = [] ∧ st.partialText = []
  · rw [if_pos hg] at h
    simp at h
  · rw [if_neg hg] at h
    have h1 := (Prod.mk.injEq _ _ _ _ ▸ h).1
    have h2 := (Prod.mk.injEq _ _ _ _ ▸ h).2
    have hb : b = ⟨fix_text (flushText st) (contextOf st), contextOf st⟩ :=
      (Option.some.injEq _ _ ▸ h1).symm
    exact ⟨hb, by rw [← h2, hb]⟩

theorem process_sentences_fires {st : TranscriptBuffer}
    (h : ¬(st.current_sentences = [] ∧ st.partialText = [])) :
    process_sentences st =
      (some ⟨fix_text (flushText st) (contextOf st), contextOf st⟩,
       { st with
         current_sentences := []
         partialText := []
         context_history :=
           pushHistory st.context_history (fix_text (flushText st) (contextOf st)) }) := by
  unfold process_sentences
  rw [if_neg h]

theorem pushHistory_eq_lastN {ch : List Str} {x : Str} (h : ch.length ≤ 5) :
    pushHistory ch x = lastN 5 (ch ++ [x]) ∧ (pushHistory ch x).length ≤ 5 := by
  unfold pushHistory lastN
  by_cases h6 : 5 < (ch ++ [x]).length
  · rw [if_pos h6]
    have hlen : (ch ++ [x]).length = 6 := by
      simp only [List.length_append, List.length_singleton] at h6 ⊢
      omega
    rw [show (ch ++ [x]).length - 5 = 1 by omega, ← List.drop_one]
    exact ⟨rfl, by simp [List.length_tail, hlen]⟩
  · rw [if_neg h6]
    have hz : (ch ++ [x]).length - 5 = 0 := by omega
    rw [hz, List.drop_zero]
    exact ⟨rfl, by omega⟩

theorem pyWords_combinedText (st : TranscriptBuffer) (t : Str) :
    pyWords (combinedText st t) = pyWords st.partialText ++ pyWords t := by
  unfold combinedText
  by_cases hp : st.partialText = []
  · rw [if_pos hp, hp]
    rfl
  · rw [if_neg hp]
    exact wordsAcc_split ' ' rfl st.partialText t []

theorem contentTokens_ingestState (st : TranscriptBuffer) (input : Str) :
    contentTokens (ingestState st input) = contentTokens st ++ pyWords input := by
  unfold contentTokens ingestState
  simp only [List.map_append, List.flatten_append]
  rw [List.append_assoc, List.append_assoc]
  congr 1
  rw [split_into_sentences_tokens (combinedText st (pyTrim input)),
      pyWords_combinedText, pyWords_pyTrim]

theorem add_text_none_content {cfg : BufferConfig} {st : TranscriptBuffer} {input : Str}
    (h : (add_text cfg st input).1 = none) :
    contentTokens (add_text cfg st input).2 = contentTokens st ++ pyWords input := by
  by_cases htrim : pyTrim input = []
  · have hw : pyWords input = [] := by
      rw [← pyWords_pyTrim, htrim]
      rfl
    unfold add_text
    rw [if_pos htrim, hw, List.append_nil]
  · have hcontent2 := contentTokens_ingestState st input
    unfold add_text at h ⊢
    rw [if_neg htrim] at h ⊢
    by_cases hf : flushDecision cfg (ingestState st input).current_sentences.length = true
    · rw [if_pos hf] at h ⊢
      rcases hp : process_sentences (ingestState st input) with ⟨ob, x⟩
      rcases ob with _ | b
      · obtain ⟨_, _, hx⟩ := process_sentences_none hp
        show contentTokens x = _
        rw [hx]
        exact hcontent2
      · rw [hp] at h
        simp at h
    · rw [if_neg hf] at h ⊢
      by_cases h1 : (ingestState st input).current_sentences ≠ []
      · rw [if_pos h1]
        exact hcontent2
      · rw [if_neg h1]
        by_cases h2 : (ingestState st input).partialText ≠ []
        · rw [if_pos h2]
          exact hcontent2
        · rw [if_neg h2]
          exact hcontent2

theorem addTexts_no_flush_content (cfg : BufferConfig) :
    ∀ (fs : List Str) (st : TranscriptBuffer), (addTexts cfg st fs).1 = [] →
      contentTokens (addTexts cfg st fs).2 = contentTokens st ++ (fs.map pyWords).flatten := by
  intro fs
  induction fs with
  | nil => intro st _; simp [addTexts]
  | cons f fs ih =>
    intro st h
    unfold addTexts at h ⊢
    rcases List.append_eq_nil.mp h with ⟨h1, h2⟩
    have hn : (add_text cfg st f).1 = none := by
      rcases hb : (add_text cfg st f).1 with _ | b
      · rfl
      · rw [hb] at h1; simp at h1
    rw [ih _ h2, add_text_none_content hn, List.map_cons, List.flatten_cons,
        List.append_assoc]

theorem ingestState_timer (st : TranscriptBuffer) (input : Str) :
    (ingestState st input).timer = none := rfl

theorem ingestState_length (st : TranscriptBuffer) (input : Str) :
    (ingestState st input).current_sentences.length = newCount st input := by
  unfold ingestState newCount
  simp

theorem flushDecision_eq_true_iff (cfg : BufferConfig) (n : Nat) :
    flushDecision cfg n = true ↔ (cfg.targetSentences ≤ n ∨ cfg.maxSentences ≤ n) := by
  unfold flushDecision
  by_cases h1 : cfg.targetSentences ≤ n
  · simp [h1]
  · by_cases h2 : cfg.maxSentences ≤ n <;> simp [h1, h2]

theorem ingestState_nonempty {st : TranscriptBuffer} {input : Str} (htrim : pyTrim input ≠ []) :
    (ingestState st input).current_sentences ≠ [] ∨ (ingestState st input).partialText ≠ [] := by
  by_contra hcon
  push_neg at hcon
  obtain ⟨hcs, hpt⟩ := hcon
  have hp1 : (split_into_sentences (combinedText st (pyTrim input))).1 = [] := by
    have : st.current_sentences ++ (split_into_sentences (combinedText st (pyTrim input))).1 = [] := hcs
    exact (List.append_eq_nil.mp this).2
  have hp2 : (split_into_sentences (combinedText st (pyTrim input))).2 = [] := hpt
  have htok := split_into_sentences_tokens (combinedText st (pyTrim input))
  rw [hp1, hp2] at htok
  simp only [List.map_nil, List.flatten_nil, List.nil_append] at htok
  have hwnil : pyWords (combinedText st (pyTrim input)) = [] := by
    rw [← htok]
    rfl
  rw [pyWords_combinedText, pyWords_pyTrim] at hwnil
  have : pyWords input = [] := (List.append_eq_nil.mp hwnil).2
  exact pyWords_ne_nil_of_pyTrim_ne_nil input htrim this

/-- Claim C3: with the default configuration, a call to `add_text` on
non-whitespace input returns a batch exactly when the number of complete
sentences accumulated after segmenting the combined text reaches the TARGET
threshold (4) or the MAX threshold (5); an ingest that brings the count to
exactly 4 flushes and leaves no timer armed, and an ingest that jumps the
count from below 4 to 5 or more also flushes. -/
theorem c3_flush_threshold (st : TranscriptBuffer) (input : Str) (h : pyTrim input ≠ []) :
    ((add_text defaultConfig st input).1.isSome ↔
      (4 ≤ newCount st input ∨ 5 ≤ newCount st input)) ∧
    (newCount st input = 4 →
      (add_text defaultConfig st input).1.isSome = true ∧
      (add_text defaultConfig st input).2.timer = none) ∧
    (st.current_sentences.length < 4 → 5 ≤ newCount st input →
      (add_text defaultConfig st input).1.isSome = true) := by
  have hlen := ingestState_length st input
  have hiff : (add_text defaultConfig st input).1.isSome = true ↔
      (4 ≤ newCount st input ∨ 5 ≤ newCount st input) := by
    unfold add_text
    rw [if_neg h]
    by_cases hf : flushDecision defaultConfig (ingestState st input).current_sentences.length = true
    · rw [if_pos hf]
      have hrange : 4 ≤ newCount st input ∨ 5 ≤ newCount st input := by
        have hh := (flushDecision_eq_true_iff defaultConfig _).mp hf
        rw [hlen] at hh
        simpa [defaultConfig] using hh
      have hcs : (ingestState st input).current_sentences ≠ [] := by
        intro hnil
        have h0 : newCount st input = 0 := by
          rw [← hlen, hnil]
          rfl
        rcases hrange with h4 | h5 <;> omega
      have hfires := @process_sentences_fires (ingestState st input)
        (fun hc => hcs hc.1)
      rw [hfires]
      simpa using hrange
    · rw [if_neg hf]
      have hnot : ¬(4 ≤ newCount st input ∨ 5 ≤ newCount st input) := by
        intro hc
        refine hf ((flushDecision_eq_true_iff _ _).mpr ?_)
        rw [hlen]
        simpa [defaultConfig] using hc
      by_cases h1 : (ingestState st input).current_sentences ≠ []
      · rw [if_pos h1]; simpa using hnot
      · rw [if_neg h1]
        by_cases h2 : (ingestState st input).partialText ≠ []
        · rw [if_pos h2]; simpa using hnot
        · rw [if_neg h2]; simpa using hnot
  have htimer : (add_text defaultConfig st input).1.isSome = true →
      (add_text defaultConfig st input).2.timer = none := by
    unfold add_text
    rw [if_neg h]
    by_cases hf : flushDecision defaultConfig (ingestState st input).current_sentences.length = true
    · rw [if_pos hf]
      intro _
      rcases hp : process_sentences (ingestState st input) with ⟨ob, x⟩
      rcases ob with _ | b
      · obtain ⟨_, _, hx⟩ := process_sentences_none hp
        show x.timer = none
        rw [hx, ingestState_timer]
      · obtain ⟨_, hx⟩ := process_sentences_some hp
        show x.timer = none
        rw [hx]
        exact ingestState_timer st input
    · rw [if_neg hf]
      by_cases h1 : (ingestState st input).current_sentences ≠ []
      · rw [if_pos h1]; intro hs; simp at hs
      · rw [if_neg h1]
        by_cases h2 : (ingestState st input).partialText ≠ []
        · rw [if_pos h2]; intro hs; simp at hs
        · rw [if_neg h2]; intro hs; simp at hs
  refine ⟨by simpa using hiff, fun h4 => ?_, fun _ h5 => ?_⟩
  · have hs := hiff.mpr (Or.inl (by omega))
    exact ⟨hs, htimer hs⟩
  · exact hiff.mpr (Or.inr h5)

/-- Witness for claim C3 at the concrete input that yields exactly four
sentences in one call. -/
theorem c3_flush_threshold_witness :
    ((add_text defaultConfig freshTB (("갑니다. 갑니다. 갑니다. 갑니다.").data)).1.isSome ↔
      (4 ≤ newCount freshTB (("갑니다. 갑니다. 갑니다. 갑니다.").data) ∨
       5 ≤ newCount freshTB (("갑니다. 갑니다. 갑니다. 갑니다.").data))) ∧
    (newCount freshTB (("갑니다. 갑니다. 갑니다. 갑니다.").data) = 4 →
      (add_text defaultConfig freshTB (("갑니다. 갑니다. 갑니다. 갑니다.").data)).1.isSome = true ∧
      (add_text defaultConfig freshTB (("갑니다. 갑니다. 갑니다. 갑니다.").data)).2.timer = none) ∧
    (freshTB.current_sentences.length < 4 →
      5 ≤ newCount freshTB (("갑니다. 갑니다. 갑니다. 갑니다.").data) →
      (add_text defaultConfig freshTB (("갑니다. 갑니다. 갑니다. 갑니다.").data)).1.isSome = true) :=
  c3_flush_threshold freshTB (("갑니다. 갑니다. 갑니다. 갑니다.").data) (by decide)

/-- Claim C6: every `add_text` call on non-whitespace input discards the old
timer; when it does not flush inline it arms exactly one new timer — the
longer sentence timeout (default 4.0 s) when a complete sentence is
outstanding, the short partial timeout (default 2.0 s) when only partial text
is outstanding — and when it does flush no timer is left armed, so at most
one deferred-flush timer is active at any time. -/
theorem c6_timer_takeover (st : TranscriptBuffer) (input : Str) (h : pyTrim input ≠ []) :
    ((add_text defaultConfig st input).1.isSome = true →
      (add_text defaultConfig st input).2.timer = none) ∧
    ((add_text defaultConfig st input).1 = none →
      ((add_text defaultConfig st input).2.current_sentences ≠ [] ∧
        (add_text defaultConfig st input).2.timer = some (4 : ℚ)) ∨
      ((add_text defaultConfig st input).2.current_sentences = [] ∧
        (add_text defaultConfig st input).2.partialText ≠ [] ∧
        (add_text defaultConfig st input).2.timer = some (2 : ℚ))) := by
  constructor
  · unfold add_text
    rw [if_neg h]
    by_cases hf : flushDecision defaultConfig (ingestState st input).current_sentences.length = true
    · rw [if_pos hf]
      intro _
      rcases hp : process_sentences (ingestState st input) with ⟨ob, x⟩
      rcases ob with _ | b
      · obtain ⟨_, _, hx⟩ := process_sentences_none hp
        show x.timer = none
        rw [hx, ingestState_timer]
      · obtain ⟨_, hx⟩ := process_sentences_some hp
        show x.timer = none
        rw [hx]
        exact ingestState_timer st input
    · rw [if_neg hf]
      by_cases h1 : (ingestState st input).current_sentences ≠ []
      · rw [if_pos h1]; intro hs; simp at hs
      · rw [if_neg h1]
        by_cases h2 : (ingestState st input).partialText ≠ []
        · rw [if_pos h2]; intro hs; simp at hs
        · rw [if_neg h2]; intro hs; simp at hs
  · unfold add_text
    rw [if_neg h]
    by_cases hf : flushDecision defaultConfig (ingestState st input).current_sentences.length = true
    · rw [if_pos hf]
      intro hnone
      rcases hp : process_sentences (ingestState st input) with ⟨ob, x⟩
      rcases ob with _ | b
      · obtain ⟨hcs, hpt, _⟩ := process_sentences_none hp
        rcases @ingestState_nonempty st input h with hno | hno
        · exact absurd hcs hno
        · exact absurd hpt hno
      · rw [hp] at hnone
        simp at hnone
    · rw [if_neg hf]
      by_cases h1 : (ingestState st input).current_sentences ≠ []
      · rw [if_pos h1]
        intro _
        exact Or.inl ⟨h1, rfl⟩
      · rw [if_neg h1]
        push_neg at h1
        by_cases h2 : (ingestState st input).partialText ≠ []
        · rw [if_pos h2]
          intro _
          exact Or.inr ⟨h1, h2, rfl⟩
        · push_neg at h2
          rcases @ingestState_nonempty st input h with hno | hno
          · exact absurd h1 hno
          · exact absurd h2 hno

/-- Witness for claim C6 at a concrete fragment with no sentence terminator,
which arms the short 2-second timer. -/
theorem c6_timer_takeover_witness :
    ((add_text defaultConfig freshTB (("안녕").data)).1.isSome = true →
      (add_text defaultConfig freshTB (("안녕").data)).2.timer = none) ∧
    ((add_text defaultConfig freshTB (("안녕").data)).1 = none →
      ((add_text defaultConfig freshTB (("안녕").data)).2.current_sentences ≠ [] ∧
        (add_text defaultConfig freshTB (("안녕").data)).2.timer = some (4 : ℚ)) ∨
      ((add_text defaultConfig freshTB (("안녕").data)).2.current_sentences = [] ∧
        (add_text defaultConfig freshTB (("안녕").data)).2.partialText ≠ [] ∧
        (add_text defaultConfig freshTB (("안녕").data)).2.timer = some (2 : ℚ))) :=
  c6_timer_takeover freshTB (("안녕").data) (by decide)

/-- Claim C10: whenever `TARGET <= MAX` (which holds for the configured
defaults 4 and 5), the `elif len >= MAX` branch of `add_text` can never be
the branch that triggers a flush, so removing it — leaving the single test
`len(current_sentences) >= TARGET` — yields exactly the same behaviour on
every state and input. -/
theorem c10_max_branch_redundant (cfg : BufferConfig)
    (hle : cfg.targetSentences ≤ cfg.maxSentences) (st : TranscriptBuffer) (input : Str) :
    add_text cfg st input = add_text_target_only cfg st input := by
  by_cases htrim : pyTrim input = []
  · unfold add_text add_text_target_only
    rw [if_pos htrim, if_pos htrim]
  · unfold add_text add_text_target_only
    rw [if_neg htrim, if_neg htrim]
    by_cases hP : cfg.targetSentences ≤ (ingestState st input).current_sentences.length
    · have hfd : flushDecision cfg (ingestState st input).current_sentences.length = true := by
        unfold flushDecision
        rw [if_pos hP]
      rw [if_pos hfd, if_pos hP]
    · have h2 : ¬ cfg.maxSentences ≤ (ingestState st input).current_sentences.length :=
        fun hc => hP (le_trans hle hc)
      have hfd : flushDecision cfg (ingestState st input).current_sentences.length = false := by
        unfold flushDecision
        rw [if_neg hP, if_neg h2]
      rw [if_neg (by simp [hfd]), if_neg hP]

/-- Witness for claim C10 at the default configuration and a concrete call. -/
theorem c10_max_branch_redundant_witness :
    add_text defaultConfig freshTB (("안녕").data) =
      add_text_target_only defaultConfig freshTB (("안녕").data) :=
  c10_max_branch_redundant defaultConfig (by decide) freshTB (("안녕").data)

/-! ## Context-history arithmetic -/

theorem lastN_of_length_le {α : Type} {l : List α} {n : Nat} (h : l.length ≤ n) :
    lastN n l = l := by
  unfold lastN
  rw [Nat.sub_eq_zero_of_le h, List.drop_zero]

theorem lastN_lastN_append {α : Type} (n : Nat) (a c : List α) :
    lastN n (lastN n a ++ c) = lastN n (a ++ c) := by
  unfold lastN
  rw [List.drop_append_eq_append_drop, List.drop_append_eq_append_drop, List.drop_drop]
  have h1 : a.length - n + ((List.drop (a.length - n) a ++ c).length - n)
      = (a ++ c).length - n := by
    simp only [List.length_append, List.length_drop]
    omega
  have h2 : (List.drop (a.length - n) a ++ c).length - n - (List.drop (a.length - n) a).length
      = (a ++ c).length - n - a.length := by
    simp only [List.length_append, List.length_drop]
    omega
  rw [h1, h2]

theorem runFlushes_spec : ∀ (loads : List (List Str × Str)) (st : TranscriptBuffer),
    st.context_history.length ≤ 5 → (∀ l ∈ loads, l.1 ≠ [] ∨ l.2 ≠ []) →
    (runFlushes st loads).1.length = loads.length ∧
    (runFlushes st loads).2.context_history =
      lastN 5 (st.context_history ++ (runFlushes st loads).1.map Batch.korean_processed) ∧
    (runFlushes st loads).2.context_history.length ≤ 5 := by
  intro loads
  induction loads with
  | nil =>
    intro st h _
    refine ⟨rfl, ?_, h⟩
    show st.context_history = lastN 5 (st.context_history ++ [])
    rw [List.append_nil, lastN_of_length_le h]
  | cons load rest ih =>
    intro st h hl
    have hload := hl load (by simp)
    have hne : ¬((refill st load).current_sentences = [] ∧ (refill st load).partialText = []) := by
      intro hc
      rcases hload with h' | h'
      · exact h' hc.1
      · exact h' hc.2
    have hrun : runFlushes st (load :: rest) =
        ((process_sentences (refill st load)).1.toList ++
          (runFlushes (process_sentences (refill st load)).2 rest).1,
         (runFlushes (process_sentences (refill st load)).2 rest).2) := rfl
    rcases hp : process_sentences (refill st load) with ⟨ob, st1⟩
    rcases ob with _ | b
    · obtain ⟨hcs, hpt, _⟩ := process_sentences_none hp
      exact absurd ⟨hcs, hpt⟩ hne
    · obtain ⟨hb, hst1⟩ := process_sentences_some hp
      have hch1 : st1.context_history = pushHistory st.context_history b.korean_processed := by
        rw [hst1]
        rfl
      have hpush := @pushHistory_eq_lastN st.context_history b.korean_processed h
      have hih := ih st1 (by rw [hch1]; exact hpush.2) (fun l hlmem => hl l (by simp [hlmem]))
      rw [hrun, hp]
      simp only [Option.toList_some, List.singleton_append, List.length_cons, List.map_cons]
      refine ⟨by rw [hih.1], ?_, hih.2.2⟩
      rw [hih.2.1, hch1, hpush.1]
      rw [show st.context_history ++
            b.korean_processed :: (runFlushes st1 rest).1.map Batch.korean_processed
          = (st.context_history ++ [b.korean_processed]) ++
              (runFlushes st1 rest).1.map Batch.korean_processed by simp]
      exact lastN_lastN_append 5 _ _

/-- Claim C5: immediately after every flush that produces a batch the
sentence buffer and partial text are empty while the history survives with
the flushed text appended and is capped at 5 entries with the oldest evicted
first; consequently, after 6 successful flushes starting from an empty
history, the history holds exactly the texts of the last 5 flushes in
order. -/
theorem c5_history_cap :
    (∀ (st : TranscriptBuffer) (b : Batch) (st' : TranscriptBuffer),
      process_sentences st = (some b, st') →
      st'.current_sentences = [] ∧ st'.partialText = [] ∧
      (st.context_history.length ≤ 5 →
        st'.context_history = lastN 5 (st.context_history ++ [b.korean_processed]) ∧
        st'.context_history.length ≤ 5)) ∧
    (∀ (st0 : TranscriptBuffer) (loads : List (List Str × Str)),
      st0.context_history = [] → loads.length = 6 →
      (∀ l ∈ loads, l.1 ≠ [] ∨ l.2 ≠ []) →
      (runFlushes st0 loads).1.length = 6 ∧
      (runFlushes st0 loads).2.context_history =
        lastN 5 ((runFlushes st0 loads).1.map Batch.korean_processed)) := by
  constructor
  · intro st b st' hp
    obtain ⟨_, hst'⟩ := process_sentences_some hp
    refine ⟨by rw [hst'], by rw [hst'], fun h5 => ?_⟩
    have hch : st'.context_history = pushHistory st.context_history b.korean_processed := by
      rw [hst']
    have hpush := @pushHistory_eq_lastN st.context_history b.korean_processed h5
    rw [hch]
    exact hpush
  · intro st0 loads hch0 hlen hl
    have hspec := runFlushes_spec loads st0 (by rw [hch0]; simp) hl
    refine ⟨by rw [hspec.1, hlen], ?_⟩
    rw [hspec.2.1, hch0, List.nil_append]

/-- Witness for claim C5: one concrete flush, and the six-flush scenario
that leaves exactly the last five texts in the history. -/
theorem c5_history_cap_witness :
    (tbA'.current_sentences = [] ∧ tbA'.partialText = [] ∧
      (tbA.context_history.length ≤ 5 →
        tbA'.context_history = lastN 5 (tbA.context_history ++ [batchA.korean_processed]) ∧
        tbA'.context_history.length ≤ 5)) ∧
    ((runFlushes freshTB sixLoads).1.length = 6 ∧
     (runFlushes freshTB sixLoads).2.context_history =
       lastN 5 ((runFlushes freshTB sixLoads).1.map Batch.korean_processed)) :=
  ⟨c5_history_cap.1 tbA batchA tbA' (by decide),
   c5_history_cap.2 freshTB sixLoads rfl rfl (by decide)⟩

/-- Claim C9: segmentation is total and yields a partition of the input's
whitespace-delimited tokens — concatenating the tokens of every produced
sentence, in order, followed by the tokens of the unterminated remainder,
reproduces the input's token sequence exactly. Totality (it never raises)
holds by construction, since `split_into_sentences` is a total function. -/
theorem c9_segmentation_partition (t : Str) :
    ((split_into_sentences t).1.map pyWords).flatten ++ pyWords (split_into_sentences t).2
      = pyWords t :=
  split_into_sentences_tokens t

/-- Claim C2: feeding a list of non-whitespace fragments one by one with no
inline flush, and feeding their space-separated concatenation in a single
non-flushing call, leave the buffer with the same content of complete
sentences followed by partial text (compared as the sequence of
whitespace-delimited tokens). -/
theorem c2_concat_vs_incremental (cfg : BufferConfig) (st0 : TranscriptBuffer)
    (fs : List Str) (_hfrag : ∀ f ∈ fs, pyTrim f ≠ [])
    (h1 : (addTexts cfg st0 fs).1 = [])
    (h2 : (add_text cfg st0 (joinWords fs)).1 = none) :
    contentTokens (addTexts cfg st0 fs).2 =
      contentTokens (add_text cfg st0 (joinWords fs)).2 := by
  rw [addTexts_no_flush_content cfg fs st0 h1, add_text_none_content h2,
      pyWords_joinWords_flatten]

/-- Witness for claim C2 on two concrete fragments. -/
theorem c2_concat_vs_incremental_witness :
    contentTokens (addTexts defaultConfig freshTB [("안녕").data, ("하세요").data]).2 =
      contentTokens (add_text defaultConfig freshTB
        (joinWords [("안녕").data, ("하세요").data])).2 :=
  c2_concat_vs_incremental defaultConfig freshTB [("안녕").data, ("하세요").data]
    (by decide) (by decide) (by decide)

/-- Counterexample to claim C4 as stated: flushing the four sentences
segmented from `"성심 갑니다. 갑니다. 갑니다."` produces a batch whose text is
`"성신 갑니다. 갑니다. 갑니다."` — the text corrector replaced `성심` with
`성신` — which differs from the space-joined concatenation of the flushed
sentences (which equals the original input). -/
theorem c4_counterexample :
    (ingestState freshTB (("성심 갑니다. 갑니다. 갑니다.").data)).current_sentences =
      [("성심").data, ("갑니다.").data, ("갑니다.").data, ("갑니다.").data] ∧
    (ingestState freshTB (("성심 갑니다. 갑니다. 갑니다.").data)).partialText = [] ∧
    joinWords [("성심").data, ("갑니다.").data, ("갑니다.").data, ("갑니다.").data] =
      ("성심 갑니다. 갑니다. 갑니다.").data ∧
    (add_text defaultConfig freshTB (("성심 갑니다. 갑니다. 갑니다.").data)).1 =
      some ⟨("성신 갑니다. 갑니다. 갑니다.").data, []⟩ ∧
    ("성신 갑니다. 갑니다. 갑니다.").data ≠ ("성심 갑니다. 갑니다. 갑니다.").data :=
  ⟨rfl, rfl, rfl, rfl, by decide⟩

/-- Claim C4 (amended): for every flush with at least one complete sentence
or a non-empty partial text outstanding, the batch's text equals the text
corrector `fix_text` applied to the space-joined concatenation of
`current_sentences` followed by `partial_text` when it is non-empty, with
the pre-flush context as the correction context; the batch's context equals
the space-join of the last 3 entries of `context_history` as they were
before this flush. Both inline and timer flushes go through
`_process_sentences`. -/
theorem c4_flush_payload (st : TranscriptBuffer)
    (h : st.current_sentences ≠ [] ∨ st.partialText ≠ []) :
    (process_sentences st).1 =
      some ⟨fix_text
              (joinWords (st.current_sentences ++
                (if st.partialText = [] then [] else [st.partialText])))
              (if st.context_history = [] then []
               else joinWords (lastN 3 st.context_history)),
            if st.context_history = [] then []
            else joinWords (lastN 3 st.context_history)⟩ := by
  have hne : ¬(st.current_sentences = [] ∧ st.partialText = []) := by
    intro hc
    rcases h with h' | h'
    · exact h' hc.1
    · exact h' hc.2
  rw [process_sentences_fires hne]
  rfl

/-- Witness for the amended claim C4 at a buffer with one sentence and a
four-entry history. -/
theorem c4_flush_payload_witness :
    (process_sentences
        (⟨[("가나다").data], [], [("하나").data, ("둘").data, ("셋").data, ("넷").data],
          none⟩ : TranscriptBuffer)).1 =
      some ⟨fix_text
              (joinWords ((⟨[("가나다").data], [],
                  [("하나").data, ("둘").data, ("셋").data, ("넷").data], none⟩ :
                    TranscriptBuffer).current_sentences ++
                (if (⟨[("가나다").data], [],
                    [("하나").data, ("둘").data, ("셋").data, ("넷").data], none⟩ :
                      TranscriptBuffer).partialText = [] then []
                 else [(⟨[("가나다").data], [],
                    [("하나").data, ("둘").data, ("셋").data, ("넷").data], none⟩ :
                      TranscriptBuffer).partialText])))
              (if (⟨[("가나다").data], [],
                  [("하나").data, ("둘").data, ("셋").data, ("넷").data], none⟩ :
                    TranscriptBuffer).context_history = [] then []
               else joinWords (lastN 3 (⟨[("가나다").data], [],
                  [("하나").data, ("둘").data, ("셋").data, ("넷").data], none⟩ :
                    TranscriptBuffer).context_history)),
            if (⟨[("가나다").data], [],
                [("하나").data, ("둘").data, ("셋").data, ("넷").data], none⟩ :
                  TranscriptBuffer).context_history = [] then []
            else joinWords (lastN 3 (⟨[("가나다").data], [],
                [("하나").data, ("둘").data, ("셋").data, ("넷").data], none⟩ :
                  TranscriptBuffer).context_history)⟩ :=
  c4_flush_payload
    (⟨[("가나다").data], [], [("하나").data, ("둘").data, ("셋").data, ("넷").data],
      none⟩ : TranscriptBuffer) (by decide)

/-! ## RTZR client lemmas and claims -/

theorem foldl_add_audio_not_ready {α : Type} :
    ∀ (frames : List α) (st : RTZRClientState α), st.connection_ready = false →
      frames.foldl add_audio st = { st with pending_audio := st.pending_audio ++ frames } := by
  intro frames
  induction frames with
  | nil => intro st _; simp
  | cons a frames ih =>
    intro st hst
    show frames.foldl add_audio (add_audio st a) = _
    rw [add_audio, if_neg (by rw [hst]; simp)]
    rw [ih _ (by rw [hst])]
    simp

theorem foldl_add_audio_ready {α : Type} :
    ∀ (frames : List α) (st : RTZRClientState α), st.connection_ready = true →
      frames.foldl add_audio st = { st with audio_queue := st.audio_queue ++ frames } := by
  intro frames
  induction frames with
  | nil => intro st _; simp
  | cons a frames ih =>
    intro st hst
    show frames.foldl add_audio (add_audio st a) = _
    rw [add_audio, if_pos (by rw [hst])]
    rw [ih _ (by rw [hst])]
    simp

/-- Claim C1: for any split of the submitted audio frames into those arriving
before and those arriving after the link becomes ready, every frame ends up
on the outbound `audio_queue` exactly once and in submission order — the
pre-ready frames are buffered in `pending_audio` (the queue stays empty),
moved en bloc in order when the connection completes, and followed by every
post-ready frame; the pending buffer is empty afterwards. -/
theorem c1_audio_frame_order (α : Type) (pre post : List α) :
    ((pre.foldl add_audio (initClientState (α := α))).audio_queue = [] ∧
     (pre.foldl add_audio (initClientState (α := α))).pending_audio = pre) ∧
    (post.foldl add_audio
        (on_connected (pre.foldl add_audio (initClientState (α := α))))).audio_queue
      = pre ++ post ∧
    (post.foldl add_audio
        (on_connected (pre.foldl add_audio (initClientState (α := α))))).pending_audio
      = [] := by
  have h1 : pre.foldl add_audio (initClientState (α := α)) =
      { initClientState (α := α) with pending_audio := pre } := by
    rw [foldl_add_audio_not_ready pre initClientState rfl]
    rfl
  have h2 : on_connected (pre.foldl add_audio (initClientState (α := α))) =
      { connection_ready := true, audio_queue := pre, pending_audio := [],
        is_running := true } := by
    rw [h1]
    rfl
  have h3 := foldl_add_audio_ready post
    ({ connection_ready := true, audio_queue := pre, pending_audio := [],
       is_running := true } : RTZRClientState α) rfl
  refine ⟨⟨by rw [h1]; rfl, by rw [h1]⟩, ?_, ?_⟩
  · rw [h2, h3]
  · rw [h2, h3]


theorem handle_message_eq (m : STTMessage) :
    handle_message m =
      if fireSpec m then some (pyTrim (m.alternatives.headD [])) else none := by
  unfold handle_message fireSpec
  by_cases ha : m.alternatives.isEmpty
  · simp [ha]
  · by_cases htext : pyTrim (m.alternatives.headD []) = []
    · simp [ha, htext]
    · by_cases hfin : m.final <;> simp [ha, htext, hfin, List.isEmpty_iff]

/-- Claim C7: over any sequence of decoded messages, the transcript callback
fires exactly once, in receipt order, for precisely the messages whose
alternatives list is non-empty, whose first alternative has non-empty
stripped text, and whose final flag is set — and it receives that stripped
text; a message carrying no alternatives (for instance one that only carries
an error field) never fires the callback and does not stop the processing of
later messages, whatever its flags. -/
theorem c7_receive_loop_dispatch :
    (∀ (msgs : List STTMessage),
      processMessages msgs =
        (msgs.filter fireSpec).map (fun m => pyTrim (m.alternatives.headD []))) ∧
    (∀ (f e : Bool) (msgs : List STTMessage),
      processMessages ({ alternatives := [], final := f, error := e } :: msgs) =
        processMessages msgs) := by
  constructor
  · intro msgs
    induction msgs with
    | nil => rfl
    | cons m msgs ih =>
      unfold processMessages at ih ⊢
      rw [List.filterMap_cons, handle_message_eq, List.filter_cons]
      by_cases hf : fireSpec m = true
      · rw [if_pos hf, if_pos hf, List.map_cons, ih]
      · rw [if_neg hf, if_neg hf, ih]
  · intro f e msgs
    unfold processMessages
    rw [List.filterMap_cons]
    have : handle_message { alternatives := [], final := f, error := e } = none := rfl
    rw [this]

/-- Claim C8: when token acquisition fails — the authentication endpoint is
unreachable (`netFailure`) or answers with a non-200 status — `get_token`
yields no token; `connect_websocket` then returns immediately without
attempting a socket connection or any retry, leaving the client state
untouched with `connection_ready` false; consequently every frame later
submitted through `add_audio` accumulates in `pending_audio` and is never
forwarded to the outbound `audio_queue`, which stays empty. -/
theorem c8_auth_failure_audio_never_forwarded (α : Type) (now : ℚ) (status : Nat)
    (tok : Str) (frames : List α) (hstatus : status ≠ 200) :
    (get_token none now (AuthResponse.httpResponse status tok)).1 = none ∧
    (get_token none now AuthResponse.netFailure).1 = none ∧
    connect_websocket_auth (initClientState (α := α))
        (get_token none now AuthResponse.netFailure).1 = (initClientState, false) ∧
    (frames.foldl add_audio (initClientState (α := α))).audio_queue = [] ∧
    (frames.foldl add_audio (initClientState (α := α))).connection_ready = false ∧
    (frames.foldl add_audio (initClientState (α := α))).pending_audio = frames := by
  have hfold := foldl_add_audio_not_ready frames (initClientState (α := α)) rfl
  refine ⟨?_, rfl, rfl, ?_, ?_, ?_⟩
  · unfold get_token
    simp [hstatus]
  · rw [hfold]
    rfl
  · rw [hfold]
    rfl
  · rw [hfold]
    show initClientState.pending_audio ++ frames = frames
    rfl

/-- Witness for claim C8 with a 401 response and three concrete frames. -/
theorem c8_auth_failure_audio_never_forwarded_witness :
    (get_token none 0 (AuthResponse.httpResponse 401 [])).1 = none ∧
    (get_token none 0 AuthResponse.netFailure).1 = none ∧
    connect_websocket_auth (initClientState (α := Nat))
        (get_token none 0 AuthResponse.netFailure).1 = (initClientState, false) ∧
    (([0, 1, 2] : List Nat).foldl add_audio (initClientState (α := Nat))).audio_queue = [] ∧
    (([0, 1, 2] : List Nat).foldl add_audio (initClientState (α := Nat))).connection_ready
      = false ∧
    (([0, 1, 2] : List Nat).foldl add_audio (initClientState (α := Nat))).pending_audio
      = [0, 1, 2] :=
  c8_auth_failure_audio_never_forwarded Nat 0 401 [] [0, 1, 2] (by decide)
